import Mathlib

/-
Shallow embedding of the image-enhancer application.

Sources embedded here:
  - src/App.tsx : the record store, the per-image enhancement flow
    (enhanceSingleImage), the batch orchestrator (enhanceAllImages),
    the archive assembler (handleDownloadAll) and the upload handler
    (handleFileChange).
  - the service module (enhanceImage) : the single-call client of the
    remote enhancement service.
  - the card component (handleDownload) : the single-file download name.
  - the types module : ImageFileStatus and ImageFile.

Modelling conventions: stores are lists threaded explicitly; every
setImages call is one store-to-store step; the remote service and the
fetch and zip collaborators are oracle functions passed as arguments;
JavaScript truthiness of an optional string is modelled as the value
being present and nonempty.
-/

inductive ImageFileStatus where
  | IDLE
  | ENHANCING
  | SUCCESS
  | ERROR
deriving DecidableEq, Repr

open ImageFileStatus

/-- An uploaded file: its name, media type and raw content. -/
structure UpFile where
  name : String
  type : String
  content : String
deriving DecidableEq, Repr

/-- The ImageFile record of the types module. The error field is optional
there and omitted at creation, hence an Option here. -/
structure ImageFile where
  id : String
  file : UpFile
  originalSrc : String
  enhancedSrc : Option String
  status : ImageFileStatus
  error : Option String
deriving DecidableEq, Repr

/-- Character-level split, the behaviour of the JavaScript split method
with a one-character separator. -/
def splitOnChar (sep : Char) : List Char → List (List Char)
  | [] => [[]]
  | c :: rest =>
    match splitOnChar sep rest with
    | [] => [[]]
    | h :: t => if c = sep then [] :: h :: t else (c :: h) :: t

/-- The JavaScript startsWith check used on media types, character based. -/
def jsStartsWith (s pre : String) : Bool :=
  pre.toList.isPrefixOf s.toList

/-- fileToDataURL of App.tsx: the FileReader data URL of an uploaded file. -/
def fileToDataURL (f : UpFile) : String :=
  "data:" ++ f.type ++ ";base64," ++ f.content

/-- fileToBase64 of App.tsx: the part of a data URL after the first comma. -/
def fileToBase64 (dataUrl : String) : String :=
  String.mk (((splitOnChar ',' dataUrl.toList).drop 1).headD [])

/-- The base-name derivation shared by both download paths: split the file
name on dots, drop the last segment, join with dots. -/
def originalBaseName (name : String) : String :=
  String.mk (List.intercalate [ '.'] ((splitOnChar '.' name.toList).dropLast))

/-- The extension derivation shared by both download paths: the second
segment of the media type split on the slash, with a png default when that
segment is missing or empty, and jpeg normalised to jpg. -/
def extensionOf (type : String) : String :=
  let raw := String.mk (((splitOnChar '/' type.toList).drop 1).headD [])
  let raw := if raw = "" then "png" else raw
  if raw = "jpeg" then "jpg" else raw

/-- handleDownload of the card component: the single-file download name. -/
def downloadName (f : UpFile) : String :=
  originalBaseName f.name ++ "-enhanced." ++ extensionOf f.type

/-- The archive entry name built in the loop of handleDownloadAll. -/
def archiveEntryName (f : UpFile) : String :=
  originalBaseName f.name ++ "-enhanced." ++ extensionOf f.type

/-- Modelled from the spec: the extension exactly as the spec words it,
namely the subtype after the slash with jpeg normalised to jpg, with no
default. Used only to compare the spec wording with extensionOf. -/
def specSubtypeExt (type : String) : String :=
  let sub := String.mk (List.intercalate [ '/'] ((splitOnChar '/' type.toList).drop 1))
  if sub = "jpeg" then "jpg" else sub

/-- One content part of the remote response. The inlineData field holds
the data string when present; a missing data field is modelled as a
missing inlineData, both being falsy in the source check. -/
structure ContentPart where
  inlineData : Option String
deriving DecidableEq, Repr

/-- The loop of enhanceImage over the ordered content parts: the first
part whose inlineData data is present and nonempty. -/
def firstImagePayload : List ContentPart → Option String
  | [] => none
  | p :: rest =>
    match p.inlineData with
    | some d => if d = "" then firstImagePayload rest else some d
    | none => firstImagePayload rest

/-- The credential check of enhanceImage: process.env.API_KEY is truthy,
that is present and nonempty. -/
def credentialPresent (apiKey : Option String) : Bool :=
  apiKey.getD "" ≠ ""

/-- enhanceImage of the service module. The remote call is an oracle:
ok with the ordered content parts, or error carrying the thrown value
(some message when the throw is an Error instance, none otherwise). The
missing-credential throw happens before the try block, so it is not
wrapped; failures inside the try block are wrapped by the catch. -/
def enhanceImage (apiKey : Option String)
    (remote : Except (Option String) (List ContentPart)) : Except String String :=
  if credentialPresent apiKey = false then
    .error "API key not found in environment variables."
  else
    match remote with
    | .error (some msg) => .error ("Failed to enhance image: " ++ msg)
    | .error none => .error "An unknown error occurred during image enhancement."
    | .ok parts =>
      match firstImagePayload parts with
      | some d => .ok d
      | none => .error ("Failed to enhance image: " ++ "No enhanced image found in the API response.")

/-- The record built for one accepted file in handleFileChange. -/
def mkImageFile (f : UpFile) (now : Nat) : ImageFile :=
  { id := f.name ++ "-" ++ toString now
    file := f
    originalSrc := fileToDataURL f
    enhancedSrc := none
    status := IDLE
    error := none }

/-- The loop of handleFileChange: keep the files whose media type starts
with the image prefix, in order, one record each. -/
def buildNewImageFiles (now : Nat) : List UpFile → List ImageFile
  | [] => []
  | f :: rest =>
    if jsStartsWith f.type "image/" then mkImageFile f now :: buildNewImageFiles now rest
    else buildNewImageFiles now rest

/-- handleFileChange of App.tsx: append the new records to the store. -/
def handleFileChange (files : Option (List UpFile)) (now : Nat)
    (images : List ImageFile) : List ImageFile :=
  match files with
  | none => images
  | some fs => images ++ buildNewImageFiles now fs

/-- The client oracle: what the awaited enhanceImage call returns for a
given base64 payload and media type. -/
def ClientFun : Type := String → String → Except String String

/-- enhanceSingleImage of App.tsx, final store. The record is looked up,
its status is first set to ENHANCING, then the client outcome decides the
terminal update; an unknown id is a no-op. -/
def enhanceSingleImage (client : ClientFun) (id : String)
    (images : List ImageFile) : List ImageFile :=
  match images.find? (fun img => img.id = id) with
  | none => images
  | some imageToEnhance =>
    let s1 := images.map (fun img => if img.id = id then { img with status := ENHANCING } else img)
    match client (fileToBase64 imageToEnhance.originalSrc) imageToEnhance.file.type with
    | .ok enhancedBase64 =>
      let enhancedSrc := "data:" ++ imageToEnhance.file.type ++ ";base64," ++ enhancedBase64
      s1.map (fun img => if img.id = id then { img with status := SUCCESS, enhancedSrc := some enhancedSrc } else img)
    | .error errorMessage =>
      s1.map (fun img => if img.id = id then { img with status := ERROR, error := some errorMessage } else img)

/-- The stores observed after each setImages call of enhanceSingleImage:
the ENHANCING store, then the terminal store. -/
def enhanceSingleImageStates (client : ClientFun) (id : String)
    (images : List ImageFile) : List (List ImageFile) :=
  match images.find? (fun img => img.id = id) with
  | none => [images]
  | some imageToEnhance =>
    let s1 := images.map (fun img => if img.id = id then { img with status := ENHANCING } else img)
    match client (fileToBase64 imageToEnhance.originalSrc) imageToEnhance.file.type with
    | .ok enhancedBase64 =>
      let enhancedSrc := "data:" ++ imageToEnhance.file.type ++ ";base64," ++ enhancedBase64
      [s1, s1.map (fun img => if img.id = id then { img with status := SUCCESS, enhancedSrc := some enhancedSrc } else img)]
    | .error errorMessage =>
      [s1, s1.map (fun img => if img.id = id then { img with status := ERROR, error := some errorMessage } else img)]

/-- The ids of the snapshot taken at the start of enhanceAllImages: the
records whose status is IDLE at call time, in store order. -/
def idleSnapshotIds (images : List ImageFile) : List String :=
  (images.filter (fun img => img.status = IDLE)).map (fun img => img.id)

/-- The loop of enhanceAllImages: one awaited enhanceSingleImage per
snapshot id, strictly in order. -/
def batchGo (client : ClientFun) : List String → List ImageFile → List ImageFile
  | [], images => images
  | id :: rest, images => batchGo client rest (enhanceSingleImage client id images)

/-- enhanceAllImages of App.tsx, final store. -/
def enhanceAllImages (client : ClientFun) (images : List ImageFile) : List ImageFile :=
  batchGo client (idleSnapshotIds images) images

/-- The batch loop with interleaved uploads: after each completed
enhancement the next batch of externally added records is appended (an
upload resolving between two awaited steps). Returns the store before
each step and the final store. -/
def batchGoStates (client : ClientFun) :
    List String → List (List ImageFile) → List ImageFile → List (List ImageFile)
  | [], _, images => [images]
  | id :: rest, adds, images =>
    images :: batchGoStates client rest adds.tail (enhanceSingleImage client id images ++ adds.headD [])

/-- enhanceAllImages with interleaved uploads, as a store trace: the
snapshot is taken once, before any step. -/
def enhanceAllRunStates (client : ClientFun) (adds : List (List ImageFile))
    (images : List ImageFile) : List (List ImageFile) :=
  batchGoStates client (idleSnapshotIds images) adds images

/-- The result of handleDownloadAll: the generated archive blob when one
was produced, the name of the triggered download when one was triggered,
whether the zipping flag was ever raised, and the flag value on exit. -/
structure ArchiveResult where
  archive : Option String
  download : Option String
  zippingSet : Bool
  isZippingAfter : Bool
deriving DecidableEq, Repr

/-- The fetch-and-pack loop of handleDownloadAll: fetch the enhanced
bytes of each record (skipping a falsy enhancedSrc as the continue does)
and collect the named entries handed to the zip; the first fetch
rejection aborts the loop. -/
def collectEntries (fetchBlob : String → Except String String) :
    List ImageFile → Except String (List (String × String))
  | [] => .ok []
  | image :: rest =>
    if image.enhancedSrc.getD "" = "" then collectEntries fetchBlob rest
    else
      match fetchBlob (image.enhancedSrc.getD "") with
      | .error e => .error e
      | .ok blob =>
        match collectEntries fetchBlob rest with
        | .error e => .error e
        | .ok es => .ok ((archiveEntryName image.file, blob) :: es)

/-- handleDownloadAll of App.tsx. Success records with truthy enhanced
bytes are selected; with none the function returns before raising the
zipping flag; otherwise the flag is raised, the entries are fetched and
packed, and the try-catch-finally guarantees the flag is cleared on every
exit path while only the fully successful path produces the archive and
triggers the download. -/
def handleDownloadAll (fetchBlob : String → Except String String)
    (zipGen : List (String × String) → Except String String)
    (images : List ImageFile) (isZipping0 : Bool) : ArchiveResult :=
  let successfulImages := images.filter (fun img => img.status = SUCCESS ∧ img.enhancedSrc.getD "" ≠ "")
  if successfulImages.length = 0 then
    { archive := none, download := none, zippingSet := false, isZippingAfter := isZipping0 }
  else
    match collectEntries fetchBlob successfulImages with
    | .error _ => { archive := none, download := none, zippingSet := true, isZippingAfter := false }
    | .ok entries =>
      match zipGen entries with
      | .error _ => { archive := none, download := none, zippingSet := true, isZippingAfter := false }
      | .ok content =>
        { archive := some content, download := some "enhanced-images.zip", zippingSet := true, isZippingAfter := false }

/-- The record invariant of the spec data model: enhanced bytes present
exactly in state SUCCESS, error detail present exactly in state ERROR. -/
def RecordInv (img : ImageFile) : Prop :=
  (img.status = SUCCESS ↔ img.enhancedSrc.isSome = true) ∧
  (img.status = ERROR ↔ img.error.isSome = true)

instance (img : ImageFile) : Decidable (RecordInv img) := by
  unfold RecordInv; infer_instance

/-- A terminal status of the per-image state machine. -/
def terminalStatus (st : ImageFileStatus) : Prop :=
  st = SUCCESS ∨ st = ERROR

instance (st : ImageFileStatus) : Decidable (terminalStatus st) := by
  unfold terminalStatus; infer_instance

/-- Lookup of a record by id, the way the source looks records up. -/
def lookupId (images : List ImageFile) (id : String) : Option ImageFile :=
  images.find? (fun img => img.id = id)

/-- The terminal update of enhanceSingleImage applied to one record: the
client outcome on the found record img0 decides whether img becomes a
SUCCESS record carrying the enhanced data URL or an ERROR record carrying
the message. -/
def applyOutcome (client : ClientFun) (img0 img : ImageFile) : ImageFile :=
  match client (fileToBase64 img0.originalSrc) img0.file.type with
  | .ok enhancedBase64 =>
    { img with status := SUCCESS, enhancedSrc := some ("data:" ++ img0.file.type ++ ";base64," ++ enhancedBase64) }
  | .error errorMessage => { img with status := ERROR, error := some errorMessage }

/-- The terminal record a found record becomes after its own enhancement. -/
def terminalUpdate (client : ClientFun) (img0 : ImageFile) : ImageFile :=
  applyOutcome client img0 img0

theorem applyOutcome_id (client : ClientFun) (img0 img : ImageFile) :
    (applyOutcome client img0 img).id = img.id := by
  unfold applyOutcome
  cases client (fileToBase64 img0.originalSrc) img0.file.type <;> rfl

theorem enhanceSingleImage_not_found (client : ClientFun) (id : String)
    (images : List ImageFile) (h : lookupId images id = none) :
    enhanceSingleImage client id images = images := by
  unfold lookupId at h
  unfold enhanceSingleImage
  rw [h]

theorem enhanceSingleImage_found (client : ClientFun) (id : String)
    (images : List ImageFile) (img0 : ImageFile) (h : lookupId images id = some img0) :
    enhanceSingleImage client id images =
      images.map (fun img => if img.id = id then applyOutcome client img0 img else img) := by
  unfold lookupId at h
  cases hc : client (fileToBase64 img0.originalSrc) img0.file.type with
  | ok b =>
    unfold enhanceSingleImage
    simp only [h, hc]
    rw [List.map_map]
    apply List.map_congr_left
    intro a _
    by_cases ha : a.id = id <;> simp [ha, applyOutcome, hc]
  | error e =>
    unfold enhanceSingleImage
    simp only [h, hc]
    rw [List.map_map]
    apply List.map_congr_left
    intro a _
    by_cases ha : a.id = id <;> simp [ha, applyOutcome, hc]

theorem enhanceSingleImageStates_not_found (client : ClientFun) (id : String)
    (images : List ImageFile) (h : lookupId images id = none) :
    enhanceSingleImageStates client id images = [images] := by
  unfold lookupId at h
  unfold enhanceSingleImageStates
  rw [h]

theorem enhanceSingleImageStates_found (client : ClientFun) (id : String)
    (images : List ImageFile) (img0 : ImageFile) (h : lookupId images id = some img0) :
    enhanceSingleImageStates client id images =
      [images.map (fun img => if img.id = id then { img with status := ENHANCING } else img),
       images.map (fun img => if img.id = id then applyOutcome client img0 img else img)] := by
  unfold lookupId at h
  cases hc : client (fileToBase64 img0.originalSrc) img0.file.type with
  | ok b =>
    unfold enhanceSingleImageStates
    simp only [h, hc, List.cons.injEq, and_true, true_and]
    rw [List.map_map]
    apply List.map_congr_left
    intro a _
    by_cases ha : a.id = id <;> simp [ha, applyOutcome, hc]
  | error e =>
    unfold enhanceSingleImageStates
    simp only [h, hc, List.cons.injEq, and_true, true_and]
    rw [List.map_map]
    apply List.map_congr_left
    intro a _
    by_cases ha : a.id = id <;> simp [ha, applyOutcome, hc]

theorem enhanceSingleImage_mem_states (client : ClientFun) (id : String)
    (images : List ImageFile) :
    enhanceSingleImage client id images ∈ enhanceSingleImageStates client id images := by
  cases h : lookupId images id with
  | none =>
    rw [enhanceSingleImage_not_found client id images h,
      enhanceSingleImageStates_not_found client id images h]
    exact List.mem_singleton.mpr rfl
  | some img0 =>
    rw [enhanceSingleImage_found client id images img0 h,
      enhanceSingleImageStates_found client id images img0 h]
    simp

theorem lookupId_map_upd (s : List ImageFile) (id x : String) (f : ImageFile → ImageFile)
    (hf : ∀ img, (f img).id = img.id) :
    lookupId (s.map (fun img => if img.id = id then f img else img)) x =
      (lookupId s x).map (fun img => if img.id = id then f img else img) := by
  unfold lookupId
  have hp : ((fun img : ImageFile => decide (img.id = x)) ∘ (fun img => if img.id = id then f img else img)) =
      (fun img : ImageFile => decide (img.id = x)) := by
    funext img
    by_cases h : img.id = id <;> simp [h, hf]
  rw [List.find?_map, hp]

theorem lookupId_pred (s : List ImageFile) (x : String) (r : ImageFile)
    (h : lookupId s x = some r) : r.id = x := by
  unfold lookupId at h
  simpa using List.find?_some h

theorem lookupId_mem (s : List ImageFile) (x : String) (r : ImageFile)
    (h : lookupId s x = some r) : r ∈ s := by
  unfold lookupId at h
  exact List.mem_of_find?_eq_some h

theorem lookupId_enhance_ne (client : ClientFun) (id x : String) (s : List ImageFile)
    (hx : x ≠ id) :
    lookupId (enhanceSingleImage client id s) x = lookupId s x := by
  cases h : lookupId s id with
  | none => rw [enhanceSingleImage_not_found client id s h]
  | some img0 =>
    rw [enhanceSingleImage_found client id s img0 h,
      lookupId_map_upd s id x _ (applyOutcome_id client img0)]
    cases h2 : lookupId s x with
    | none => rfl
    | some r =>
      have hr : r.id = x := lookupId_pred s x r h2
      simp [hr, hx]

theorem lookupId_enhance_self (client : ClientFun) (id : String) (s : List ImageFile)
    (img0 : ImageFile) (h : lookupId s id = some img0) :
    lookupId (enhanceSingleImage client id s) id = some (terminalUpdate client img0) := by
  rw [enhanceSingleImage_found client id s img0 h,
    lookupId_map_upd s id id _ (applyOutcome_id client img0), h]
  have h0 : img0.id = id := lookupId_pred s id img0 h
  simp [h0, terminalUpdate]

theorem enhanceSingleImage_map_id (client : ClientFun) (id : String) (s : List ImageFile) :
    (enhanceSingleImage client id s).map (fun img => img.id) = s.map (fun img => img.id) := by
  cases h : lookupId s id with
  | none => rw [enhanceSingleImage_not_found client id s h]
  | some img0 =>
    rw [enhanceSingleImage_found client id s img0 h, List.map_map]
    apply List.map_congr_left
    intro a _
    by_cases ha : a.id = id <;> simp [ha, applyOutcome_id]

theorem enhanceSingleImage_length (client : ClientFun) (id : String) (s : List ImageFile) :
    (enhanceSingleImage client id s).length = s.length := by
  cases h : lookupId s id with
  | none => rw [enhanceSingleImage_not_found client id s h]
  | some img0 => rw [enhanceSingleImage_found client id s img0 h, List.length_map]

theorem enhanceSingleImage_getElem_ne (client : ClientFun) (id : String) (s : List ImageFile)
    (i : Nat) (hi : i < s.length) (hne : (s.get ⟨i, hi⟩).id ≠ id) :
    (enhanceSingleImage client id s)[i]? = some (s.get ⟨i, hi⟩) := by
  cases h : lookupId s id with
  | none =>
    rw [enhanceSingleImage_not_found client id s h]
    simp [List.getElem?_eq_getElem hi]
  | some img0 =>
    rw [enhanceSingleImage_found client id s img0 h, List.getElem?_map,
      List.getElem?_eq_getElem hi]
    have hne2 : s[i].id ≠ id := hne
    simp [hne2]

theorem enhanceSingleImage_append (client : ClientFun) (id : String)
    (s t : List ImageFile) (ht : ∀ a ∈ t, a.id ≠ id) :
    enhanceSingleImage client id (s ++ t) = enhanceSingleImage client id s ++ t := by
  have hft : t.find? (fun img => img.id = id) = none := by
    rw [List.find?_eq_none]
    intro a ha
    simpa using ht a ha
  cases h : lookupId s id with
  | none =>
    have h2 : lookupId (s ++ t) id = none := by
      unfold lookupId at h ⊢
      rw [List.find?_append, h, hft]
      rfl
    rw [enhanceSingleImage_not_found client id (s ++ t) h2,
      enhanceSingleImage_not_found client id s h]
  | some img0 =>
    have h2 : lookupId (s ++ t) id = some img0 := by
      unfold lookupId at h ⊢
      rw [List.find?_append, h]
      rfl
    rw [enhanceSingleImage_found client id (s ++ t) img0 h2,
      enhanceSingleImage_found client id s img0 h, List.map_append]
    congr 1
    have : ∀ a ∈ t, (if a.id = id then applyOutcome client img0 a else a) = a := by
      intro a ha
      simp [ht a ha]
    calc t.map (fun img => if img.id = id then applyOutcome client img0 img else img)
        = t.map (fun img => img) := List.map_congr_left this
      _ = t := List.map_id t

theorem lookupId_append_left (s t : List ImageFile) (x : String) (r : ImageFile)
    (h : lookupId s x = some r) : lookupId (s ++ t) x = some r := by
  unfold lookupId at h ⊢
  rw [List.find?_append, h]
  rfl

theorem id_inj_of_nodup (s : List ImageFile) (hnd : (s.map (fun img => img.id)).Nodup)
    (a b : ImageFile) (ha : a ∈ s) (hb : b ∈ s) (h : a.id = b.id) : a = b :=
  List.inj_on_of_nodup_map hnd ha hb h

theorem lookupId_self_of_nodup (s : List ImageFile) (img : ImageFile)
    (h : img ∈ s) (hnd : (s.map (fun i => i.id)).Nodup) :
    lookupId s img.id = some img := by
  induction s with
  | nil => cases h
  | cons a l ih =>
    rw [List.map_cons, List.nodup_cons] at hnd
    by_cases hpa : a.id = img.id
    · have himg : img = a := by
        rcases List.mem_cons.mp h with heq | hmem
        · exact heq
        · exfalso
          apply hnd.1
          rw [hpa]
          exact List.mem_map.mpr ⟨img, hmem, rfl⟩
      unfold lookupId
      rw [List.find?_cons_of_pos _ (by simpa using hpa)]
      rw [himg]
    · have hmem : img ∈ l := by
        rcases List.mem_cons.mp h with heq | hmem
        · exact absurd (show a.id = img.id by rw [heq]) hpa
        · exact hmem
      unfold lookupId
      rw [List.find?_cons_of_neg _ (by simpa using hpa)]
      exact ih hmem hnd.2

theorem batchGo_append (client : ClientFun) (ids : List String) :
    ∀ (s t : List ImageFile), (∀ id ∈ ids, ∀ a ∈ t, a.id ≠ id) →
      batchGo client ids (s ++ t) = batchGo client ids s ++ t := by
  induction ids with
  | nil => intro s t _; rfl
  | cons id rest ih =>
    intro s t h
    simp only [batchGo]
    rw [enhanceSingleImage_append client id s t (h id (List.mem_cons_self id rest))]
    exact ih (enhanceSingleImage client id s) t (fun id2 h2 => h id2 (List.mem_cons_of_mem id h2))

theorem batchGo_lookup_not_mem (client : ClientFun) (ids : List String) :
    ∀ (s : List ImageFile) (x : String), x ∉ ids →
      lookupId (batchGo client ids s) x = lookupId s x := by
  induction ids with
  | nil => intro s x _; rfl
  | cons id rest ih =>
    intro s x hx
    simp only [batchGo]
    rw [ih (enhanceSingleImage client id s) x (fun h => hx (List.mem_cons_of_mem id h)),
      lookupId_enhance_ne client id x s (fun h => hx (h ▸ List.mem_cons_self id rest))]

theorem batchGo_map_id (client : ClientFun) (ids : List String) :
    ∀ (s : List ImageFile),
      (batchGo client ids s).map (fun img => img.id) = s.map (fun img => img.id) := by
  induction ids with
  | nil => intro s; rfl
  | cons id rest ih =>
    intro s
    simp only [batchGo]
    rw [ih (enhanceSingleImage client id s), enhanceSingleImage_map_id]

theorem batchGo_snap_lookup (client : ClientFun) (snap : List ImageFile) :
    ∀ (s : List ImageFile),
      (∀ r ∈ snap, lookupId s r.id = some r) →
      ((snap.map (fun img => img.id)).Nodup) →
      ∀ (i : Nat) (hi : i < snap.length),
        lookupId (batchGo client (snap.map (fun img => img.id)) s) ((snap.get ⟨i, hi⟩).id) =
          some (terminalUpdate client (snap.get ⟨i, hi⟩)) := by
  induction snap with
  | nil =>
    intro s _ _ i hi
    exact absurd hi (by simp)
  | cons r rest ih =>
    intro s hsub hnd i hi
    rw [List.map_cons] at hnd ⊢
    rw [List.nodup_cons] at hnd
    simp only [batchGo]
    cases i with
    | zero =>
      show lookupId (batchGo client (rest.map (fun img => img.id))
        (enhanceSingleImage client r.id s)) r.id = some (terminalUpdate client r)
      rw [batchGo_lookup_not_mem client (rest.map (fun img => img.id))
        (enhanceSingleImage client r.id s) r.id hnd.1]
      exact lookupId_enhance_self client r.id s r (hsub r (List.mem_cons_self r rest))
    | succ j =>
      have hsub2 : ∀ r2 ∈ rest, lookupId (enhanceSingleImage client r.id s) r2.id = some r2 := by
        intro r2 h2
        have hne : r2.id ≠ r.id := by
          intro heq
          exact hnd.1 (heq ▸ List.mem_map.mpr ⟨r2, h2, rfl⟩)
        rw [lookupId_enhance_ne client r.id r2.id s hne]
        exact hsub r2 (List.mem_cons_of_mem r h2)
      exact ih (enhanceSingleImage client r.id s) hsub2 hnd.2 j (Nat.succ_lt_succ_iff.mp hi)

theorem batchGoStates_length (client : ClientFun) (ids : List String) :
    ∀ (adds : List (List ImageFile)) (s : List ImageFile),
      (batchGoStates client ids adds s).length = ids.length + 1 := by
  induction ids with
  | nil => intro adds s; rfl
  | cons id rest ih =>
    intro adds s
    simp only [batchGoStates, List.length_cons, ih]

theorem flatten_take_succ (adds : List (List ImageFile)) (k : Nat) :
    (adds.take (k + 1)).flatten = adds.headD [] ++ (adds.tail.take k).flatten := by
  cases adds with
  | nil => simp
  | cons t ts => simp [List.take_succ_cons]

theorem batchGoStates_get (client : ClientFun) (ids : List String) :
    ∀ (adds : List (List ImageFile)) (s : List ImageFile),
      (∀ id ∈ ids, ∀ t ∈ adds, ∀ a ∈ t, a.id ≠ id) →
      ∀ (k : Nat) (hk : k < (batchGoStates client ids adds s).length),
        (batchGoStates client ids adds s).get ⟨k, hk⟩ =
          batchGo client (ids.take k) s ++ (adds.take k).flatten := by
  induction ids with
  | nil =>
    intro adds s _ k hk
    have hk0 : k = 0 := by
      have h1 := hk
      rw [batchGoStates_length] at h1
      simp only [List.length_nil] at h1
      omega
    subst hk0
    simp [batchGoStates, batchGo]
  | cons id rest ih =>
    intro adds s hdisj k hk
    cases k with
    | zero => simp [batchGoStates, batchGo]
    | succ k =>
      have hk2 : k < (batchGoStates client rest adds.tail
          (enhanceSingleImage client id s ++ adds.headD [])).length := by
        have h1 := hk
        rw [batchGoStates_length] at h1 ⊢
        simp only [List.length_cons] at h1
        omega
      have hdisj2 : ∀ id2 ∈ rest, ∀ t ∈ adds.tail, ∀ a ∈ t, a.id ≠ id2 := by
        intro id2 h2 t ht a ha
        exact hdisj id2 (List.mem_cons_of_mem id h2) t (List.mem_of_mem_tail ht) a ha
      show (batchGoStates client rest adds.tail
        (enhanceSingleImage client id s ++ adds.headD [])).get ⟨k, hk2⟩ = _
      rw [ih adds.tail (enhanceSingleImage client id s ++ adds.headD []) hdisj2 k hk2]
      rw [List.take_succ_cons]
      show _ = batchGo client (rest.take k) (enhanceSingleImage client id s) ++ (adds.take (k + 1)).flatten
      rw [batchGo_append client (rest.take k) (enhanceSingleImage client id s) (adds.headD [])
        ?hd3]
      rw [flatten_take_succ, List.append_assoc]
      case hd3 =>
        intro id2 h2 a ha
        cases adds with
        | nil => cases ha
        | cons t ts =>
          exact hdisj id2 (List.mem_cons_of_mem id (List.mem_of_mem_take h2))
            t (List.mem_cons_self t ts) a ha

theorem not_mem_ids_take (l : List ImageFile) (hnd : (l.map (fun img => img.id)).Nodup)
    (i k : Nat) (hi : i < l.length) (hk : k ≤ i) :
    (l.get ⟨i, hi⟩).id ∉ (l.take k).map (fun img => img.id) := by
  intro hmem
  rw [List.map_take] at hmem
  have hi2 : i < (l.map (fun img => img.id)).length := by
    rw [List.length_map]
    exact hi
  have hset : (l.map (fun img => img.id))[i] = (l.get ⟨i, hi⟩).id := by
    rw [List.getElem_map]
    rfl
  have h2 : (l.get ⟨i, hi⟩).id ∈ (l.map (fun img => img.id)).drop k := by
    have hj : i - k < ((l.map (fun img => img.id)).drop k).length := by
      rw [List.length_drop, List.length_map]
      omega
    have hEq : ((l.map (fun img => img.id)).drop k)[i - k] = (l.map (fun img => img.id))[i] := by
      rw [List.getElem_drop]
      congr 1
      omega
    rw [← hset, ← hEq]
    exact List.getElem_mem hj
  exact List.disjoint_take_drop hnd (le_refl k) hmem h2

theorem not_mem_snap_ids (images : List ImageFile)
    (hnd : (images.map (fun img => img.id)).Nodup) (img : ImageFile)
    (himg : img ∈ images) (hst : img.status ≠ IDLE) :
    img.id ∉ (images.filter (fun i => i.status = IDLE)).map (fun i => i.id) := by
  intro hmem
  rcases List.mem_map.mp hmem with ⟨r, hr, hid⟩
  have hrf := List.mem_filter.mp hr
  have heq : r = img := id_inj_of_nodup images hnd r img hrf.1 himg hid
  apply hst
  rw [← heq]
  simpa using hrf.2

theorem recordInv_enhancedSrc_none (img : ImageFile) (hInv : RecordInv img)
    (h : img.status ≠ SUCCESS) : img.enhancedSrc = none := by
  rcases hInv with ⟨h1, _⟩
  cases he : img.enhancedSrc with
  | none => rfl
  | some v => exact absurd (h1.mpr (by rw [he]; rfl)) h

theorem recordInv_error_none (img : ImageFile) (hInv : RecordInv img)
    (h : img.status ≠ ERROR) : img.error = none := by
  rcases hInv with ⟨_, h2⟩
  cases he : img.error with
  | none => rfl
  | some v => exact absurd (h2.mpr (by rw [he]; rfl)) h

theorem RecordInv_enhancing (img : ImageFile) (hInv : RecordInv img)
    (hIdle : img.status = IDLE) : RecordInv { img with status := ENHANCING } := by
  have h1 : img.enhancedSrc = none :=
    recordInv_enhancedSrc_none img hInv (by rw [hIdle]; simp)
  have h2 : img.error = none :=
    recordInv_error_none img hInv (by rw [hIdle]; simp)
  simp [RecordInv, h1, h2]

theorem RecordInv_applyOutcome (client : ClientFun) (img0 img : ImageFile)
    (hInv : RecordInv img) (hIdle : img.status = IDLE) :
    RecordInv (applyOutcome client img0 img) := by
  have h1 : img.enhancedSrc = none :=
    recordInv_enhancedSrc_none img hInv (by rw [hIdle]; simp)
  have h2 : img.error = none :=
    recordInv_error_none img hInv (by rw [hIdle]; simp)
  unfold applyOutcome
  cases hc : client (fileToBase64 img0.originalSrc) img0.file.type with
  | ok b => simp [RecordInv, h1, h2]
  | error e => simp [RecordInv, h1, h2]

theorem enhanceSingleImage_storeInv_states (client : ClientFun) (id : String)
    (images : List ImageFile)
    (hInv : ∀ img ∈ images, RecordInv img)
    (hIdle : ∀ img ∈ images, img.id = id → img.status = IDLE) :
    ∀ st ∈ enhanceSingleImageStates client id images, ∀ img ∈ st, RecordInv img := by
  cases h : lookupId images id with
  | none =>
    rw [enhanceSingleImageStates_not_found client id images h]
    intro st hst
    rw [List.mem_singleton] at hst
    subst hst
    exact hInv
  | some img0 =>
    rw [enhanceSingleImageStates_found client id images img0 h]
    intro st hst img2 himg2
    rcases List.mem_cons.mp hst with h1 | hst2
    · subst h1
      rcases List.mem_map.mp himg2 with ⟨a, ha, hEq⟩
      subst hEq
      by_cases hid : a.id = id
      · rw [if_pos hid]
        exact RecordInv_enhancing a (hInv a ha) (hIdle a ha hid)
      · rw [if_neg hid]
        exact hInv a ha
    · rw [List.mem_singleton] at hst2
      subst hst2
      rcases List.mem_map.mp himg2 with ⟨a, ha, hEq⟩
      subst hEq
      by_cases hid : a.id = id
      · rw [if_pos hid]
        exact RecordInv_applyOutcome client img0 a (hInv a ha) (hIdle a ha hid)
      · rw [if_neg hid]
        exact hInv a ha

theorem enhanceSingleImage_storeInv (client : ClientFun) (id : String)
    (images : List ImageFile)
    (hInv : ∀ img ∈ images, RecordInv img)
    (hIdle : ∀ img ∈ images, img.id = id → img.status = IDLE) :
    ∀ img ∈ enhanceSingleImage client id images, RecordInv img :=
  enhanceSingleImage_storeInv_states client id images hInv hIdle
    (enhanceSingleImage client id images) (enhanceSingleImage_mem_states client id images)

theorem batchGo_storeInv (client : ClientFun) (snap : List ImageFile) :
    ∀ (s : List ImageFile),
      (s.map (fun img => img.id)).Nodup →
      (∀ img ∈ s, RecordInv img) →
      (∀ r ∈ snap, lookupId s r.id = some r ∧ r.status = IDLE) →
      (snap.map (fun img => img.id)).Nodup →
      ∀ img ∈ batchGo client (snap.map (fun img => img.id)) s, RecordInv img := by
  induction snap with
  | nil => intro s _ hInv _ _ img himg; exact hInv img himg
  | cons r rest ih =>
    intro s hndS hInv hsub hndSnap
    rw [List.map_cons, List.nodup_cons] at hndSnap
    simp only [List.map_cons, batchGo]
    apply ih (enhanceSingleImage client r.id s)
    · rw [enhanceSingleImage_map_id]
      exact hndS
    · apply enhanceSingleImage_storeInv client r.id s hInv
      intro img himg hid
      have hr := hsub r (List.mem_cons_self r rest)
      have hrmem : r ∈ s := lookupId_mem s r.id r hr.1
      have heq : img = r := id_inj_of_nodup s hndS img r himg hrmem hid
      rw [heq]
      exact hr.2
    · intro r2 h2
      refine ⟨?_, (hsub r2 (List.mem_cons_of_mem r h2)).2⟩
      have hne : r2.id ≠ r.id := fun heq => hndSnap.1 (heq ▸ List.mem_map.mpr ⟨r2, h2, rfl⟩)
      rw [lookupId_enhance_ne client r.id r2.id s hne]
      exact (hsub r2 (List.mem_cons_of_mem r h2)).1
    · exact hndSnap.2

theorem mkImageFile_inv (f : UpFile) (now : Nat) : RecordInv (mkImageFile f now) := by
  simp [RecordInv, mkImageFile]

theorem buildNewImageFiles_eq (now : Nat) (files : List UpFile) :
    buildNewImageFiles now files =
      (files.filter (fun f => jsStartsWith f.type "image/")).map (fun f => mkImageFile f now) := by
  induction files with
  | nil => rfl
  | cons f rest ih =>
    simp only [buildNewImageFiles, List.filter_cons]
    by_cases h : jsStartsWith f.type "image/" = true
    · simp [h, ih]
    · simp [h, ih]

theorem buildNewImageFiles_fields (now : Nat) (files : List UpFile) :
    ∀ r ∈ buildNewImageFiles now files,
      r.status = IDLE ∧ r.enhancedSrc = none ∧ r.error = none := by
  induction files with
  | nil => intro r hr; cases hr
  | cons f rest ih =>
    intro r hr
    simp only [buildNewImageFiles] at hr
    by_cases h : jsStartsWith f.type "image/" = true
    · rw [if_pos h] at hr
      rcases List.mem_cons.mp hr with h1 | h2
      · subst h1
        exact ⟨rfl, rfl, rfl⟩
      · exact ih r h2
    · rw [if_neg h] at hr
      exact ih r hr

theorem firstImagePayload_first (l1 : List ContentPart) (p : ContentPart)
    (l2 : List ContentPart) (d : String)
    (h1 : ∀ q ∈ l1, q.inlineData.getD "" = "")
    (hp : p.inlineData = some d) (hd : d ≠ "") :
    firstImagePayload (l1 ++ p :: l2) = some d := by
  induction l1 with
  | nil =>
    simp only [List.nil_append, firstImagePayload, hp]
    rw [if_neg hd]
  | cons q rest ih =>
    have hq := h1 q (List.mem_cons_self q rest)
    cases hqd : q.inlineData with
    | none =>
      simp only [List.cons_append, firstImagePayload, hqd]
      exact ih (fun q2 h2 => h1 q2 (List.mem_cons_of_mem q h2))
    | some dq =>
      have hdq : dq = "" := by
        rw [hqd] at hq
        simpa using hq
      simp only [List.cons_append, firstImagePayload, hqd]
      rw [if_pos hdq]
      exact ih (fun q2 h2 => h1 q2 (List.mem_cons_of_mem q h2))

theorem string_append_ne_empty_left (a b : String) (ha : a ≠ "") : a ++ b ≠ "" := by
  intro h
  have h2 := congrArg String.length h
  rw [String.length_append] at h2
  have ha2 : a.length ≠ 0 := by
    intro h0
    apply ha
    cases a with
    | mk l =>
      cases l with
      | nil => rfl
      | cons c rest => simp [String.length] at h0
  have h0 : ("" : String).length = 0 := rfl
  rw [h0] at h2
  omega

theorem splitOnChar_ne_nil (sep : Char) (l : List Char) : splitOnChar sep l ≠ [] := by
  cases l with
  | nil => simp [splitOnChar]
  | cons c rest =>
    simp only [splitOnChar]
    cases h : splitOnChar sep rest with
    | nil => simp
    | cons a t => by_cases hc : c = sep <;> simp [hc]

theorem splitOnChar_no_sep (sep : Char) (l : List Char) (h : ∀ c ∈ l, c ≠ sep) :
    splitOnChar sep l = [l] := by
  induction l with
  | nil => rfl
  | cons c rest ih =>
    have hc := h c (List.mem_cons_self c rest)
    simp only [splitOnChar, ih (fun c2 h2 => h c2 (List.mem_cons_of_mem c h2))]
    rw [if_neg hc]

theorem splitOnChar_sep_cons (sep : Char) (l : List Char) :
    splitOnChar sep (sep :: l) = [] :: splitOnChar sep l := by
  simp only [splitOnChar]
  cases h : splitOnChar sep l with
  | nil => exact absurd h (splitOnChar_ne_nil sep l)
  | cons a t => simp

theorem splitOnChar_two (sep : Char) (pre suf : List Char)
    (hpre : ∀ c ∈ pre, c ≠ sep) (hsuf : ∀ c ∈ suf, c ≠ sep) :
    splitOnChar sep (pre ++ sep :: suf) = [pre, suf] := by
  induction pre with
  | nil =>
    rw [List.nil_append, splitOnChar_sep_cons, splitOnChar_no_sep sep suf hsuf]
  | cons c rest ih =>
    have hc := hpre c (List.mem_cons_self c rest)
    have ih2 := ih (fun c2 h2 => hpre c2 (List.mem_cons_of_mem c h2))
    simp only [List.cons_append, splitOnChar, List.append_eq, ih2]
    rw [if_neg hc]

theorem originalBaseName_no_dot (name : String) (h : ∀ c ∈ name.toList, c ≠ '.') :
    originalBaseName name = "" := by
  unfold originalBaseName
  rw [splitOnChar_no_sep '.' name.toList h]
  rfl

theorem extensionOf_image_subtype (sub : String) (hsub : sub ≠ "")
    (hslash : ∀ c ∈ sub.toList, c ≠ '/') :
    extensionOf ("image/" ++ sub) = (if sub = "jpeg" then "jpg" else sub) := by
  have htl : ("image/" ++ sub).toList = [ 'i', 'm', 'a', 'g', 'e'] ++ '/' :: sub.toList := by
    show ("image/" ++ sub).data = _
    rw [String.data_append]
    rfl
  unfold extensionOf
  rw [htl, splitOnChar_two '/' [ 'i', 'm', 'a', 'g', 'e'] sub.toList (by decide) hslash]
  have hmk : String.mk sub.toList = sub := rfl
  simp only [List.drop, List.headD, hmk]
  rw [if_neg hsub]

theorem terminalUpdate_terminal (client : ClientFun) (r : ImageFile) :
    terminalStatus (terminalUpdate client r).status := by
  unfold terminalStatus terminalUpdate applyOutcome
  cases client (fileToBase64 r.originalSrc) r.file.type with
  | ok b => left; rfl
  | error e => right; rfl

/-- Claim C5: every input file whose media type begins with the image
prefix produces exactly one new IDLE record appended to the store, files
with other media types produce no record, and the appended records keep
the relative order of the inputs. -/
theorem claimC5_thm (files : List UpFile) (now : Nat) (images : List ImageFile) :
    handleFileChange (some files) now images =
      images ++ (files.filter (fun f => jsStartsWith f.type "image/")).map (fun f => mkImageFile f now) ∧
    (buildNewImageFiles now files).map (fun r => r.file) =
      files.filter (fun f => jsStartsWith f.type "image/") ∧
    (∀ r ∈ buildNewImageFiles now files,
      r.status = IDLE ∧ r.enhancedSrc = none ∧ r.error = none) := by
  refine ⟨?_, ?_, buildNewImageFiles_fields now files⟩
  · show images ++ buildNewImageFiles now files = _
    rw [buildNewImageFiles_eq]
  · rw [buildNewImageFiles_eq, List.map_map]
    have hcomp : ((fun r : ImageFile => r.file) ∘ (fun f => mkImageFile f now)) =
        fun f : UpFile => f := by
      funext f
      rfl
    rw [hcomp]
    exact List.map_id (files.filter (fun f => jsStartsWith f.type "image/"))

theorem claimC5_wit :
    handleFileChange (some [{ name := "a.png", type := "image/png", content := "AAA" },
        { name := "notes.txt", type := "text/plain", content := "TTT" }]) 7 [] =
      [] ++ [mkImageFile { name := "a.png", type := "image/png", content := "AAA" } 7] ∧
    (mkImageFile { name := "a.png", type := "image/png", content := "AAA" } 7).status = IDLE := by
  constructor
  · rw [(claimC5_thm [{ name := "a.png", type := "image/png", content := "AAA" },
      { name := "notes.txt", type := "text/plain", content := "TTT" }] 7 []).1]
    decide
  · exact ((claimC5_thm [{ name := "a.png", type := "image/png", content := "AAA" },
      { name := "notes.txt", type := "text/plain", content := "TTT" }] 7 []).2.2
      (mkImageFile { name := "a.png", type := "image/png", content := "AAA" } 7)
      (by decide)).1

/-- Claim C10: a Success record whose original file name has no dot gets
the empty base name, so both download paths produce a name of the shape
hyphen enhanced dot ext, and both paths share the same derivation. -/
theorem claimC10_thm :
    (∀ f : UpFile, (∀ c ∈ f.name.toList, c ≠ '.') →
      downloadName f = "-enhanced." ++ extensionOf f.type ∧
      archiveEntryName f = "-enhanced." ++ extensionOf f.type) ∧
    (∀ f : UpFile, downloadName f = archiveEntryName f) := by
  constructor
  · intro f h
    have hb : originalBaseName f.name = "" := originalBaseName_no_dot f.name h
    constructor
    · unfold downloadName
      rw [hb]
      rfl
    · unfold archiveEntryName
      rw [hb]
      rfl
  · intro f
    rfl

theorem claimC10_wit :
    downloadName { name := "photo", type := "image/png", content := "" } = "-enhanced.png" := by
  rw [(claimC10_thm.1 { name := "photo", type := "image/png", content := "" } (by decide)).1]
  decide

/-- Claim C8: when no record has status SUCCESS, handleDownloadAll is a
no-op: no archive, no download, and the zipping flag is never raised, so
starting from a false flag it stays false throughout. -/
theorem claimC8_thm (fetchBlob : String → Except String String)
    (zipGen : List (String × String) → Except String String)
    (images : List ImageFile)
    (h : ∀ img ∈ images, img.status ≠ SUCCESS) :
    handleDownloadAll fetchBlob zipGen images false =
      { archive := none, download := none, zippingSet := false, isZippingAfter := false } := by
  have hfil : images.filter (fun img => img.status = SUCCESS ∧ img.enhancedSrc.getD "" ≠ "") = [] := by
    rw [List.filter_eq_nil_iff]
    intro img himg
    simp only [decide_eq_true_eq, not_and]
    intro hs
    exact absurd hs (h img himg)
  simp only [handleDownloadAll]
  rw [hfil]
  rfl

theorem claimC8_wit :
    handleDownloadAll (fun src => .ok src) (fun _ => .ok "zipblob")
      [mkImageFile { name := "a.png", type := "image/png", content := "AAA" } 0] false =
      { archive := none, download := none, zippingSet := false, isZippingAfter := false } :=
  claimC8_thm (fun src => .ok src) (fun _ => .ok "zipblob")
    [mkImageFile { name := "a.png", type := "image/png", content := "AAA" } 0] (by decide)

/-- Claim C7: when the selected Success records are nonempty and any
per-record fetch or the packaging step fails, handleDownloadAll produces
no archive and no download, and the zipping flag ends false on that exit
path exactly as on the success path. -/
theorem claimC7_thm (fetchBlob : String → Except String String)
    (zipGen : List (String × String) → Except String String)
    (images : List ImageFile) (z0 : Bool)
    (hne : images.filter (fun img => img.status = SUCCESS ∧ img.enhancedSrc.getD "" ≠ "") ≠ []) :
    (handleDownloadAll fetchBlob zipGen images z0).isZippingAfter = false ∧
    (((∃ e, collectEntries fetchBlob
          (images.filter (fun img => img.status = SUCCESS ∧ img.enhancedSrc.getD "" ≠ "")) = .error e) ∨
      (∃ es e, collectEntries fetchBlob
          (images.filter (fun img => img.status = SUCCESS ∧ img.enhancedSrc.getD "" ≠ "")) = .ok es ∧
        zipGen es = .error e)) →
      (handleDownloadAll fetchBlob zipGen images z0).archive = none ∧
      (handleDownloadAll fetchBlob zipGen images z0).download = none) := by
  have hlen : ¬ (images.filter (fun img => img.status = SUCCESS ∧ img.enhancedSrc.getD "" ≠ "")).length = 0 := by
    intro h0
    exact hne (List.length_eq_zero.mp h0)
  constructor
  · simp only [handleDownloadAll]
    rw [if_neg hlen]
    cases hc : collectEntries fetchBlob
        (images.filter (fun img => img.status = SUCCESS ∧ img.enhancedSrc.getD "" ≠ "")) with
    | error e => rfl
    | ok es =>
      dsimp only
      cases hz : zipGen es with
      | error e => rfl
      | ok content => rfl
  · intro hfail
    simp only [handleDownloadAll]
    rw [if_neg hlen]
    rcases hfail with ⟨e, hc⟩ | ⟨es, e, hc, hz⟩
    · rw [hc]
      exact ⟨rfl, rfl⟩
    · rw [hc]
      dsimp only
      rw [hz]
      exact ⟨rfl, rfl⟩

theorem claimC7_wit :
    (handleDownloadAll (fun _ => .error "network failure") (fun _ => .ok "zipblob")
      [{ id := "a.png-0", file := { name := "a.png", type := "image/png", content := "AAA" },
         originalSrc := "data:image/png;base64,AAA",
         enhancedSrc := some "data:image/png;base64,BBB",
         status := SUCCESS, error := none }] true).isZippingAfter = false ∧
    (handleDownloadAll (fun _ => .error "network failure") (fun _ => .ok "zipblob")
      [{ id := "a.png-0", file := { name := "a.png", type := "image/png", content := "AAA" },
         originalSrc := "data:image/png;base64,AAA",
         enhancedSrc := some "data:image/png;base64,BBB",
         status := SUCCESS, error := none }] true).archive = none ∧
    (handleDownloadAll (fun _ => .error "network failure") (fun _ => .ok "zipblob")
      [{ id := "a.png-0", file := { name := "a.png", type := "image/png", content := "AAA" },
         originalSrc := "data:image/png;base64,AAA",
         enhancedSrc := some "data:image/png;base64,BBB",
         status := SUCCESS, error := none }] true).download = none := by
  have h := claimC7_thm (fun _ => .error "network failure") (fun _ => .ok "zipblob")
    [{ id := "a.png-0", file := { name := "a.png", type := "image/png", content := "AAA" },
       originalSrc := "data:image/png;base64,AAA",
       enhancedSrc := some "data:image/png;base64,BBB",
       status := SUCCESS, error := none }] true (by decide)
  have h2 := h.2 (Or.inl ⟨"network failure", rfl⟩)
  exact ⟨h.1, h2.1, h2.2⟩

/-- Claim C4: with a configured credential, a successful remote call and
an image payload among the ordered content parts, enhanceImage returns
the first such payload; in every other case (missing credential, remote
error, no payload) it fails with a single error carrying a nonempty
descriptive message. -/
theorem claimC4_thm (apiKey : Option String)
    (remote : Except (Option String) (List ContentPart)) :
    (∀ (l1 l2 : List ContentPart) (p : ContentPart) (d : String),
        credentialPresent apiKey = true → remote = .ok (l1 ++ p :: l2) →
        (∀ q ∈ l1, q.inlineData.getD "" = "") →
        p.inlineData = some d → d ≠ "" →
        enhanceImage apiKey remote = .ok d) ∧
    ((credentialPresent apiKey = false ∨ (∃ err, remote = .error err) ∨
        (∃ parts, remote = .ok parts ∧ firstImagePayload parts = none)) →
      ∃ msg, enhanceImage apiKey remote = .error msg ∧ msg ≠ "") := by
  constructor
  · intro l1 l2 p d hcred hrem hl1 hp hd
    have hcf : ¬ (credentialPresent apiKey = false) := by
      rw [hcred]
      simp
    subst hrem
    unfold enhanceImage
    rw [if_neg hcf]
    dsimp only
    rw [firstImagePayload_first l1 p l2 d hl1 hp hd]
  · intro hfail
    unfold enhanceImage
    rcases hfail with hcred | ⟨err, hrem⟩ | ⟨parts, hrem, hfp⟩
    · rw [if_pos hcred]
      exact ⟨"API key not found in environment variables.", rfl, by decide⟩
    · by_cases hc : credentialPresent apiKey = false
      · rw [if_pos hc]
        exact ⟨"API key not found in environment variables.", rfl, by decide⟩
      · rw [if_neg hc]
        subst hrem
        cases err with
        | none => exact ⟨"An unknown error occurred during image enhancement.", rfl, by decide⟩
        | some m =>
          exact ⟨"Failed to enhance image: " ++ m, rfl,
            string_append_ne_empty_left "Failed to enhance image: " m (by decide)⟩
    · by_cases hc : credentialPresent apiKey = false
      · rw [if_pos hc]
        exact ⟨"API key not found in environment variables.", rfl, by decide⟩
      · rw [if_neg hc]
        subst hrem
        dsimp only
        rw [hfp]
        exact ⟨"Failed to enhance image: " ++ "No enhanced image found in the API response.", rfl,
          string_append_ne_empty_left "Failed to enhance image: "
            "No enhanced image found in the API response." (by decide)⟩

theorem claimC4_wit :
    enhanceImage (some "key") (.ok [{ inlineData := some "IMGDATA" }]) = .ok "IMGDATA" :=
  (claimC4_thm (some "key") (.ok [{ inlineData := some "IMGDATA" }])).1
    [] [] { inlineData := some "IMGDATA" } "IMGDATA"
    (by decide) rfl (fun q hq => absurd hq (List.not_mem_nil q)) rfl (by decide)

/-- Claim C6 counterexample: for the representable media type consisting
of the image prefix with an empty subtype, the code falls back to the png
default while the claim says the extension is the subtype after the
slash, which is empty there; the two names differ. -/
theorem claimC6_cex :
    downloadName { name := "x.png", type := "image/", content := "" } = "x-enhanced.png" ∧
    originalBaseName "x.png" ++ "-enhanced." ++ specSubtypeExt "image/" = "x-enhanced." ∧
    ("x-enhanced.png" : String) ≠ "x-enhanced." := by
  refine ⟨by decide, by decide, by decide⟩

/-- Claim C6 amended: the single-file download name and the archive entry
name agree for every record and equal the base name followed by the
enhanced marker and the extension, where the extension is the subtype
after the slash with jpeg normalised to jpg whenever that subtype is
nonempty, and defaults to png when the subtype is empty or missing; in
particular media type image slash jpeg yields jpg, and the archive over
Success records a.png and b.jpg contains exactly the entries
a-enhanced.png and b-enhanced.jpg. -/
theorem claimC6_thm :
    (∀ f : UpFile, downloadName f = archiveEntryName f) ∧
    (∀ (f : UpFile) (sub : String), f.type = "image/" ++ sub → sub ≠ "" →
      (∀ c ∈ sub.toList, c ≠ '/') →
      downloadName f = originalBaseName f.name ++ "-enhanced." ++ (if sub = "jpeg" then "jpg" else sub) ∧
      archiveEntryName f = originalBaseName f.name ++ "-enhanced." ++ (if sub = "jpeg" then "jpg" else sub)) ∧
    extensionOf "image/jpeg" = "jpg" ∧
    collectEntries (fun src => .ok src)
      [{ id := "a.png-0", file := { name := "a.png", type := "image/png", content := "" },
         originalSrc := "o1", enhancedSrc := some "e1", status := SUCCESS, error := none },
       { id := "b.jpg-0", file := { name := "b.jpg", type := "image/jpeg", content := "" },
         originalSrc := "o2", enhancedSrc := some "e2", status := SUCCESS, error := none }] =
      .ok [("a-enhanced.png", "e1"), ("b-enhanced.jpg", "e2")] := by
  refine ⟨fun f => rfl, ?_, by decide, by rfl⟩
  intro f sub htype hsub hslash
  have he : extensionOf f.type = (if sub = "jpeg" then "jpg" else sub) := by
    rw [htype]
    exact extensionOf_image_subtype sub hsub hslash
  constructor
  · unfold downloadName
    rw [he]
  · unfold archiveEntryName
    rw [he]

theorem claimC6_wit :
    downloadName { name := "c.jpeg", type := "image/jpeg", content := "" } =
      originalBaseName "c.jpeg" ++ "-enhanced." ++ (if ("jpeg" : String) = "jpeg" then "jpg" else "jpeg") :=
  (claimC6_thm.2.1 { name := "c.jpeg", type := "image/jpeg", content := "" } "jpeg"
    (by decide) (by decide) (by decide)).1

/-- Claim C2 counterexample: with the credential absent, an enhancement
invocation on an Idle record does pass through the ENHANCING store state
before reaching ERROR, refuting the claim that the record transitions
directly from Idle to Error without entering Enhancing. -/
theorem claimC2_cex :
    ¬ (∀ st ∈ enhanceSingleImageStates
        (fun _ _ => enhanceImage none (.ok []))
        ((mkImageFile { name := "a.png", type := "image/png", content := "AAA" } 0).id)
        [mkImageFile { name := "a.png", type := "image/png", content := "AAA" } 0],
      ∀ img ∈ st, img.status ≠ ENHANCING) := by
  decide

/-- Claim C2 amended: when the credential is absent from configuration,
an enhancement invocation on an Idle record first sets the record to
ENHANCING and then to ERROR with the configuration message, and the whole
trace is independent of the remote service oracle, so no network reply is
ever consulted. -/
theorem claimC2_thm (apiKey : Option String) (images : List ImageFile) (id : String)
    (img0 : ImageFile)
    (hfind : lookupId images id = some img0)
    (hIdle : img0.status = IDLE)
    (hcred : credentialPresent apiKey = false)
    (remote remote2 : String → String → Except (Option String) (List ContentPart)) :
    enhanceSingleImageStates (fun base64 mimeType => enhanceImage apiKey (remote base64 mimeType)) id images =
      [images.map (fun img => if img.id = id then { img with status := ENHANCING } else img),
       images.map (fun img => if img.id = id then
         { img with status := ERROR, error := some "API key not found in environment variables." } else img)] ∧
    lookupId (images.map (fun img => if img.id = id then
        { img with status := ERROR, error := some "API key not found in environment variables." } else img)) id =
      some { img0 with status := ERROR, error := some "API key not found in environment variables." } ∧
    enhanceSingleImageStates (fun base64 mimeType => enhanceImage apiKey (remote base64 mimeType)) id images =
      enhanceSingleImageStates (fun base64 mimeType => enhanceImage apiKey (remote2 base64 mimeType)) id images := by
  have key : ∀ (rem : String → String → Except (Option String) (List ContentPart)),
      enhanceSingleImageStates (fun base64 mimeType => enhanceImage apiKey (rem base64 mimeType)) id images =
        [images.map (fun img => if img.id = id then { img with status := ENHANCING } else img),
         images.map (fun img => if img.id = id then
           { img with status := ERROR, error := some "API key not found in environment variables." } else img)] := by
    intro rem
    rw [enhanceSingleImageStates_found _ id images img0 hfind]
    have hcl : enhanceImage apiKey (rem (fileToBase64 img0.originalSrc) img0.file.type) =
        Except.error "API key not found in environment variables." := by
      unfold enhanceImage
      rw [if_pos hcred]
    simp only [List.cons.injEq, and_true, true_and]
    apply List.map_congr_left
    intro a _
    by_cases ha : a.id = id
    · rw [if_pos ha, if_pos ha]
      unfold applyOutcome
      dsimp only
      rw [hcl]
    · rw [if_neg ha, if_neg ha]
  refine ⟨key remote, ?_, by rw [key remote, key remote2]⟩
  have hlk := lookupId_map_upd images id id
    (fun img =>
      { img with status := ERROR, error := some "API key not found in environment variables." })
    (fun img => rfl)
  rw [hlk, hfind]
  have h0 : img0.id = id := lookupId_pred images id img0 hfind
  simp [h0]

theorem claimC2_wit :
    lookupId ([mkImageFile { name := "a.png", type := "image/png", content := "AAA" } 0].map
        (fun img => if img.id = "a.png-0" then
          { img with status := ERROR, error := some "API key not found in environment variables." } else img))
      "a.png-0" =
      some { mkImageFile { name := "a.png", type := "image/png", content := "AAA" } 0 with
        status := ERROR, error := some "API key not found in environment variables." } :=
  (claimC2_thm none [mkImageFile { name := "a.png", type := "image/png", content := "AAA" } 0] "a.png-0"
    (mkImageFile { name := "a.png", type := "image/png", content := "AAA" } 0)
    (by decide) rfl rfl (fun _ _ => .ok []) (fun _ _ => .error none)).2.1

/-- Claim C1 counterexample: re-invoking enhancement on a record that is
already in state SUCCESS keeps its enhanced bytes through the spread
updates, so a failing re-invocation leaves a record in state ERROR whose
enhanced bytes are still present, refuting the biconditional for
re-invoked records. -/
theorem claimC1_cex :
    ¬ (∀ img ∈ enhanceSingleImage
        (fun _ _ => enhanceImage (some "key") (.error (some "network down")))
        "a.png-0"
        [{ id := "a.png-0", file := { name := "a.png", type := "image/png", content := "AAA" },
           originalSrc := "data:image/png;base64,AAA",
           enhancedSrc := some "data:image/png;base64,BBB",
           status := SUCCESS, error := none }],
      RecordInv img) := by
  decide

/-- Claim C1 amended: the presence biconditionals for enhanced bytes and
error detail hold for every record after an add, after every store state
of a single enhancement invoked on a record that is Idle, and after a
batch enhancement over a store with distinct ids; the archive build never
writes the store, so it preserves them trivially. The biconditionals are
not preserved by re-invoking enhancement on a record already in SUCCESS
or ERROR, where the stale field survives the spread update. -/
theorem claimC1_thm :
    (∀ (files : List UpFile) (now : Nat) (images : List ImageFile),
      (∀ img ∈ images, RecordInv img) →
      ∀ img ∈ handleFileChange (some files) now images, RecordInv img) ∧
    (∀ (client : ClientFun) (id : String) (images : List ImageFile),
      (∀ img ∈ images, RecordInv img) →
      (∀ img ∈ images, img.id = id → img.status = IDLE) →
      ∀ st ∈ enhanceSingleImageStates client id images, ∀ img ∈ st, RecordInv img) ∧
    (∀ (client : ClientFun) (images : List ImageFile),
      (∀ img ∈ images, RecordInv img) →
      (images.map (fun img => img.id)).Nodup →
      ∀ img ∈ enhanceAllImages client images, RecordInv img) := by
  refine ⟨?_, enhanceSingleImage_storeInv_states, ?_⟩
  · intro files now images hInv img himg
    unfold handleFileChange at himg
    rcases List.mem_append.mp himg with h1 | h2
    · exact hInv img h1
    · have hf := buildNewImageFiles_fields now files img h2
      unfold RecordInv
      rw [hf.1, hf.2.1, hf.2.2]
      simp
  · intro client images hInv hnd img himg
    unfold enhanceAllImages idleSnapshotIds at himg
    have hsnapnd : ((images.filter (fun img => img.status = IDLE)).map (fun img => img.id)).Nodup := by
      have hsb : ((images.filter (fun img => img.status = IDLE)).map (fun img => img.id)).Sublist
          (images.map (fun img => img.id)) :=
        List.Sublist.map (fun img => img.id) (List.filter_sublist images)
      exact List.Nodup.sublist hsb hnd
    apply batchGo_storeInv client (images.filter (fun img => img.status = IDLE)) images hnd hInv
      ?_ hsnapnd img himg
    intro r hr
    have hrm := List.mem_filter.mp hr
    exact ⟨lookupId_self_of_nodup images r hrm.1 hnd, by simpa using hrm.2⟩

theorem claimC1_wit :
    RecordInv
      { id := "a.png-0", file := { name := "a.png", type := "image/png", content := "AAA" },
        originalSrc := "data:image/png;base64,AAA",
        enhancedSrc := some "data:image/png;base64,IMG",
        status := SUCCESS, error := none } :=
  claimC1_thm.2.2 (fun _ _ => enhanceImage (some "key") (.ok [{ inlineData := some "IMG" }]))
    [mkImageFile { name := "a.png", type := "image/png", content := "AAA" } 0]
    (by decide) (by decide)
    { id := "a.png-0", file := { name := "a.png", type := "image/png", content := "AAA" },
      originalSrc := "data:image/png;base64,AAA",
      enhancedSrc := some "data:image/png;base64,IMG",
      status := SUCCESS, error := none }
    (by decide)

/-- Claim C9: a failing enhancement changes no other record: the store
keeps its length and every position whose id differs from the enhanced
id keeps its record unchanged; and the batch orchestrator never aborts:
every record Idle at snapshot time still reaches the terminal outcome
decided by its own client result alone. -/
theorem claimC9_thm (client : ClientFun) (images : List ImageFile) (id : String)
    (img0 : ImageFile) (e : String)
    (hfind : lookupId images id = some img0)
    (hfail : client (fileToBase64 img0.originalSrc) img0.file.type = .error e)
    (hnd : (images.map (fun img => img.id)).Nodup) :
    (enhanceSingleImage client id images).length = images.length ∧
    (∀ (i : Nat) (hi : i < images.length), (images.get ⟨i, hi⟩).id ≠ id →
      (enhanceSingleImage client id images)[i]? = some (images.get ⟨i, hi⟩)) ∧
    (∀ r ∈ images.filter (fun img => img.status = IDLE),
      lookupId (enhanceAllImages client images) r.id = some (terminalUpdate client r) ∧
      terminalStatus (terminalUpdate client r).status) := by
  refine ⟨enhanceSingleImage_length client id images,
    fun i hi hne => enhanceSingleImage_getElem_ne client id images i hi hne, ?_⟩
  intro r hr
  refine ⟨?_, terminalUpdate_terminal client r⟩
  unfold enhanceAllImages idleSnapshotIds
  have hsnapnd : ((images.filter (fun img => img.status = IDLE)).map (fun img => img.id)).Nodup := by
    have hsb : ((images.filter (fun img => img.status = IDLE)).map (fun img => img.id)).Sublist
        (images.map (fun img => img.id)) :=
      List.Sublist.map (fun img => img.id) (List.filter_sublist images)
    exact List.Nodup.sublist hsb hnd
  have hsub : ∀ r2 ∈ images.filter (fun img => img.status = IDLE),
      lookupId images r2.id = some r2 := by
    intro r2 h2
    exact lookupId_self_of_nodup images r2 (List.mem_filter.mp h2).1 hnd
  rcases List.mem_iff_get.mp hr with ⟨⟨i, hi⟩, hget⟩
  have hres := batchGo_snap_lookup client (images.filter (fun img => img.status = IDLE))
    images hsub hsnapnd i hi
  rw [hget] at hres
  exact hres

theorem claimC9_wit :
    (enhanceSingleImage (fun b _ => if b = "AAA" then Except.error "boom" else Except.ok "IMG")
      "a.png-0"
      [mkImageFile { name := "a.png", type := "image/png", content := "AAA" } 0,
       mkImageFile { name := "b.png", type := "image/png", content := "BBB" } 0]).length =
      [mkImageFile { name := "a.png", type := "image/png", content := "AAA" } 0,
       mkImageFile { name := "b.png", type := "image/png", content := "BBB" } 0].length ∧
    lookupId (enhanceAllImages (fun b _ => if b = "AAA" then Except.error "boom" else Except.ok "IMG")
        [mkImageFile { name := "a.png", type := "image/png", content := "AAA" } 0,
         mkImageFile { name := "b.png", type := "image/png", content := "BBB" } 0])
      (mkImageFile { name := "b.png", type := "image/png", content := "BBB" } 0).id =
      some (terminalUpdate (fun b _ => if b = "AAA" then Except.error "boom" else Except.ok "IMG")
        (mkImageFile { name := "b.png", type := "image/png", content := "BBB" } 0)) := by
  have h := claimC9_thm (fun b _ => if b = "AAA" then Except.error "boom" else Except.ok "IMG")
    [mkImageFile { name := "a.png", type := "image/png", content := "AAA" } 0,
     mkImageFile { name := "b.png", type := "image/png", content := "BBB" } 0]
    "a.png-0" (mkImageFile { name := "a.png", type := "image/png", content := "AAA" } 0) "boom"
    (by decide) rfl (by decide)
  exact ⟨h.1, (h.2.2 (mkImageFile { name := "b.png", type := "image/png", content := "BBB" } 0)
    (by decide)).1⟩

theorem getLast?_eq_getElem_of_length (l : List (List ImageFile)) (n : Nat)
    (hlen : l.length = n + 1) :
    l.getLast? = l[n]? := by
  rw [List.getLast?_eq_getElem?, hlen]
  simp only [Nat.add_sub_cancel]

/-- Claim C3: a batch run processes exactly the records that are Idle at
invocation time, in store order, each reaching its terminal update
before the next one starts: in the store trace of the run, after k steps
the first k snapshot records carry their terminal update while the later
snapshot records are still exactly their original Idle records, records
that were not Idle at invocation are untouched in every state, and the
final store is the batch result over the original store followed
verbatim by the records appended during the run, which are thus never
processed. Ids are assumed distinct, as the spec requires of the store,
and appended records carry fresh ids. -/
theorem claimC3_thm (client : ClientFun) (adds : List (List ImageFile))
    (images : List ImageFile)
    (hnd : (images.map (fun img => img.id)).Nodup)
    (hdisj : ∀ t ∈ adds, ∀ a ∈ t, ∀ r ∈ images, a.id ≠ r.id) :
    (enhanceAllRunStates client adds images).length =
      (images.filter (fun img => img.status = IDLE)).length + 1 ∧
    (∀ (k : Nat) (hk : k < (enhanceAllRunStates client adds images).length)
        (i : Nat) (hi : i < (images.filter (fun img => img.status = IDLE)).length),
      (k ≤ i → lookupId ((enhanceAllRunStates client adds images).get ⟨k, hk⟩)
          (((images.filter (fun img => img.status = IDLE)).get ⟨i, hi⟩).id) =
          some ((images.filter (fun img => img.status = IDLE)).get ⟨i, hi⟩)) ∧
      (i < k →
        lookupId ((enhanceAllRunStates client adds images).get ⟨k, hk⟩)
            (((images.filter (fun img => img.status = IDLE)).get ⟨i, hi⟩).id) =
          some (terminalUpdate client ((images.filter (fun img => img.status = IDLE)).get ⟨i, hi⟩)) ∧
        terminalStatus (terminalUpdate client
          ((images.filter (fun img => img.status = IDLE)).get ⟨i, hi⟩)).status)) ∧
    (∀ (k : Nat) (hk : k < (enhanceAllRunStates client adds images).length),
      ∀ img ∈ images, img.status ≠ IDLE →
        lookupId ((enhanceAllRunStates client adds images).get ⟨k, hk⟩) img.id = some img) ∧
    (enhanceAllRunStates client adds images).getLast? =
      some (enhanceAllImages client images ++
        (adds.take (images.filter (fun img => img.status = IDLE)).length).flatten) := by
  have hids : idleSnapshotIds images =
      (images.filter (fun img => img.status = IDLE)).map (fun img => img.id) := rfl
  have hdisj2 : ∀ id2 ∈ idleSnapshotIds images, ∀ t ∈ adds, ∀ a ∈ t, a.id ≠ id2 := by
    intro id2 h2 t ht a ha
    rw [hids] at h2
    rcases List.mem_map.mp h2 with ⟨r, hr, hid⟩
    rw [← hid]
    exact hdisj t ht a ha r (List.mem_of_mem_filter hr)
  have hlen0 : (idleSnapshotIds images).length =
      (images.filter (fun img => img.status = IDLE)).length := by
    rw [hids, List.length_map]
  have hlen : (enhanceAllRunStates client adds images).length =
      (images.filter (fun img => img.status = IDLE)).length + 1 := by
    unfold enhanceAllRunStates
    rw [batchGoStates_length, hlen0]
  have hget : ∀ (k : Nat) (hk : k < (enhanceAllRunStates client adds images).length),
      (enhanceAllRunStates client adds images).get ⟨k, hk⟩ =
        batchGo client ((idleSnapshotIds images).take k) images ++ (adds.take k).flatten :=
    fun k hk => batchGoStates_get client (idleSnapshotIds images) adds images hdisj2 k hk
  have hsnapnd : ((images.filter (fun img => img.status = IDLE)).map (fun img => img.id)).Nodup := by
    have hsb : ((images.filter (fun img => img.status = IDLE)).map (fun img => img.id)).Sublist
        (images.map (fun img => img.id)) :=
      List.Sublist.map (fun img => img.id) (List.filter_sublist images)
    exact List.Nodup.sublist hsb hnd
  have hsub : ∀ r ∈ images.filter (fun img => img.status = IDLE),
      lookupId images r.id = some r := by
    intro r hr
    exact lookupId_self_of_nodup images r (List.mem_filter.mp hr).1 hnd
  have htake : ∀ k : Nat, (idleSnapshotIds images).take k =
      ((images.filter (fun img => img.status = IDLE)).take k).map (fun img => img.id) := by
    intro k
    rw [hids, List.map_take]
  refine ⟨hlen, ?_, ?_, ?_⟩
  · intro k hk i hi
    constructor
    · intro hki
      rw [hget k hk, htake k]
      apply lookupId_append_left
      rw [batchGo_lookup_not_mem client _ images _
        (not_mem_ids_take (images.filter (fun img => img.status = IDLE)) hsnapnd i k hi hki)]
      exact hsub _ (List.get_mem _ _ _)
    · intro hik
      rw [hget k hk, htake k]
      have hik2 : i < ((images.filter (fun img => img.status = IDLE)).take k).length := by
        rw [List.length_take]
        omega
      have hsub2 : ∀ r ∈ (images.filter (fun img => img.status = IDLE)).take k,
          lookupId images r.id = some r :=
        fun r hr => hsub r (List.mem_of_mem_take hr)
      have hnd2 : (((images.filter (fun img => img.status = IDLE)).take k).map
          (fun img => img.id)).Nodup := by
        rw [List.map_take]
        exact List.Nodup.sublist (List.take_sublist k _) hsnapnd
      have hres := batchGo_snap_lookup client
        ((images.filter (fun img => img.status = IDLE)).take k) images hsub2 hnd2 i hik2
      have hgt : ((images.filter (fun img => img.status = IDLE)).take k).get ⟨i, hik2⟩ =
          (images.filter (fun img => img.status = IDLE)).get ⟨i, hi⟩ := by
        show ((images.filter (fun img => img.status = IDLE)).take k)[i] =
          (images.filter (fun img => img.status = IDLE))[i]
        exact List.getElem_take (images.filter (fun img => img.status = IDLE))
      rw [hgt] at hres
      exact ⟨lookupId_append_left _ _ _ _ hres, terminalUpdate_terminal client _⟩
  · intro k hk img himg hst
    rw [hget k hk, htake k]
    apply lookupId_append_left
    have hnm : img.id ∉ ((images.filter (fun i => i.status = IDLE)).take k).map
        (fun img => img.id) := by
      intro hmem
      apply not_mem_snap_ids images hnd img himg hst
      rw [List.map_take] at hmem
      exact List.mem_of_mem_take hmem
    rw [batchGo_lookup_not_mem client _ images img.id hnm]
    exact lookupId_self_of_nodup images img himg hnd
  · have hkL : (images.filter (fun img => img.status = IDLE)).length <
        (enhanceAllRunStates client adds images).length := by
      rw [hlen]
      omega
    rw [getLast?_eq_getElem_of_length (enhanceAllRunStates client adds images)
      (images.filter (fun img => img.status = IDLE)).length hlen,
      List.getElem?_eq_getElem hkL]
    have hval := hget (images.filter (fun img => img.status = IDLE)).length hkL
    have hfull : (idleSnapshotIds images).take
        (images.filter (fun img => img.status = IDLE)).length = idleSnapshotIds images := by
      rw [← hlen0]
      exact List.take_length (idleSnapshotIds images)
    rw [hfull] at hval
    rw [show (enhanceAllRunStates client adds images)[(images.filter
        (fun img => img.status = IDLE)).length] =
      (enhanceAllRunStates client adds images).get
        ⟨(images.filter (fun img => img.status = IDLE)).length, hkL⟩ from rfl, hval]
    rfl

theorem claimC3_wit :
    (enhanceAllRunStates (fun _ _ => enhanceImage (some "key") (.ok [{ inlineData := some "IMG" }]))
        [[mkImageFile { name := "late.png", type := "image/png", content := "LLL" } 9]]
        [mkImageFile { name := "a.png", type := "image/png", content := "AAA" } 0]).getLast? =
      some (enhanceAllImages (fun _ _ => enhanceImage (some "key") (.ok [{ inlineData := some "IMG" }]))
          [mkImageFile { name := "a.png", type := "image/png", content := "AAA" } 0] ++
        ([[mkImageFile { name := "late.png", type := "image/png", content := "LLL" } 9]].take
          ([mkImageFile { name := "a.png", type := "image/png", content := "AAA" } 0].filter
            (fun img => img.status = IDLE)).length).flatten) :=
  (claimC3_thm (fun _ _ => enhanceImage (some "key") (.ok [{ inlineData := some "IMG" }]))
    [[mkImageFile { name := "late.png", type := "image/png", content := "LLL" } 9]]
    [mkImageFile { name := "a.png", type := "image/png", content := "AAA" } 0]
    (by decide) (by decide)).2.2.2
